import Mathlib

/-!
Shallow embedding of the PyRCN repository over exact rational arithmetic:
`pyrcn/extreme_learning_machine.py` (ESN/ELM estimators) and
`pyrcn/linear_model/_incremental_regression.py` (incremental ridge regression).

Data matrices `X`, `y` of shape `(n_samples, d)` are modelled as lists of rows
(`List (Fin d → ℚ)`), so that splitting a dataset into consecutive batches is
list concatenation.  `numpy` float arithmetic is idealized as exact rational
arithmetic.  The activation table `ACTIVATIONS` of scikit-learn is an external
collaborator and is modelled as an arbitrary pointwise function `σ : ℚ → ℚ`;
the pseudo-random draws of `_init_weights` (data values and per-row column
choices) are modelled as explicit parameters.  Functions that can raise Python
exceptions return `Option`/`Except`, with `none`/`error` marking the raise.
-/

open Matrix

/-- Row vector of width `n`. -/
abbrev Vec (n : ℕ) : Type := Fin n → ℚ

/-- One training sample: an input row paired with a target row. -/
abbrev Sample (F O : ℕ) : Type := Vec F × Vec O

/-- Entrywise translation of `np.dot(A.T, A)` for a data matrix given as a list
of rows: `(Aᵀ·A) i j = Σ_s A s i * A s j`. -/
def gramXX {d : ℕ} (rows : List (Vec d)) : Matrix (Fin d) (Fin d) ℚ :=
  (rows.map (fun r => Matrix.of fun i j => r i * r j)).sum

/-- Entrywise translation of `np.dot(A.T, B)` for matrices given as a list of
paired rows: `(Aᵀ·B) i j = Σ_s A s i * B s j`. -/
def gramXY {d O : ℕ} (pairs : List (Vec d × Vec O)) : Matrix (Fin d) (Fin O) ℚ :=
  (pairs.map (fun s => Matrix.of fun i j => s.1 i * s.2 j)).sum

/-- Translation of `np.mean(A, axis=0)` at column `i`. -/
def colMean {d : ℕ} (rows : List (Vec d)) (i : Fin d) : ℚ :=
  (rows.map (fun r => r i)).sum / rows.length

/-- Translation of `np.var(A, axis=0)` (population variance) at column `i`. -/
def colVar {d : ℕ} (rows : List (Vec d)) (i : Fin d) : ℚ :=
  (rows.map (fun r => (r i - colMean rows i) ^ 2)).sum / rows.length

/-- Exact matrix inverse over ℚ (the mathematical content of `np.linalg.inv`
on a nonsingular matrix). -/
def matInv {m : ℕ} (A : Matrix (Fin m) (Fin m) ℚ) : Matrix (Fin m) (Fin m) ℚ :=
  (A.det)⁻¹ • A.adjugate

/-- Translation of `np.linalg.inv`: raises `LinAlgError` (here `none`) on a
singular matrix, otherwise returns the exact inverse. -/
def npLinalgInv {m : ℕ} (A : Matrix (Fin m) (Fin m) ℚ) :
    Option (Matrix (Fin m) (Fin m) ℚ) :=
  if A.det = 0 then none else some (matInv A)

/-- Hyperparameters of `BaseExtremeLearningMachine.__init__`.  `random_state`
is omitted: the pseudo-random draws it seeds are passed explicitly to the
initialization functions below. -/
structure ELMHyper where
  k_in : ℤ
  input_scaling : ℚ
  bias : ℚ
  reservoir_size : ℤ
  reservoir_activation : String
  solver : String
  beta : ℚ

/-- Translation of the module constant `_OFFLINE_SOLVERS`. -/
def OFFLINE_SOLVERS : List String := ["pinv", "ridge", "lasso"]

/-- Supported activation names of `_validate_hyperparameters`. -/
def SUPPORTED_ACTIVATIONS : List String := ["identity", "logistic", "tanh", "relu"]

/-- Translation of `_validate_hyperparameters` (each failing check raises
`ValueError`, in source order). -/
def validateHyperparameters (p : ELMHyper) : Except String Unit :=
  if p.reservoir_size ≤ 0 then .error "reservoir_size must be > 0"
  else if p.input_scaling ≤ 0 then .error "input_scaling must be > 0"
  else if p.k_in ≤ 0 then .error "k_in must be > 0"
  else if p.bias < 0 then .error "bias must be > 0"
  else if p.beta < 0 then .error "beta must be >= 0"
  else if p.reservoir_activation ∉ SUPPORTED_ACTIVATIONS then
    .error "reservoir_activation is not supported"
  else if p.solver ∉ OFFLINE_SOLVERS then .error "solver is not supported"
  else .ok ()

/-- Translation of the input-weight construction of `_init_weights`, with the
pseudo-random draws explicit: `dataVec en s` is the value `rand()*2-1` for slot
`s` of hidden unit `en` (row slice `data_vec[en*k_in : (en+1)*k_in]`), and
`perms en s` is the column index `permutation(n_features)[:k_in][s]`.  The
entry formula is exactly the duplicate-summing semantics of
`scipy.sparse.csc_matrix((data, ij))`. -/
def initInputWeights {R K F : ℕ} (perms : Fin R → Fin K → Fin F)
    (dataVec : Fin R → Fin K → ℚ) : Matrix (Fin R) (Fin F) ℚ :=
  Matrix.of fun en c => ∑ s, if perms en s = c then dataVec en s else 0

/-- First phase of `fit`: `_validate_hyperparameters` followed by the weight
allocation of `_init_weights`.  The slice `per = permutation(n_features)[:k_in]`
has length `min(n_features, k_in)`; the numpy assignment
`ij[1][idx_co:idx_co+self.k_in] = per` succeeds when that length is `k_in`
(the normal case `k_in ≤ n_features`) and also, by broadcasting, when it is
`1` (a single input feature is then duplicated into every slot); for any other
length — i.e. `k_in > n_features` with `n_features ≠ 1` — it raises
`ValueError` ("could not broadcast input array"), so no reservoir is
produced. -/
def fitInitStep (p : ELMHyper) (nFeatures : ℕ) : Except String Unit :=
  match validateHyperparameters p with
  | .error e => .error e
  | .ok _ =>
      if (nFeatures : ℤ) < p.k_in ∧ nFeatures ≠ 1 then
        .error "could not broadcast input array"
      else .ok ()

/-- Fixed random projection allocated by `_init_weights`: `input_weights_`
(line 196) and `bias_weights_` (line 199). -/
structure Reservoir (R F : ℕ) where
  input_weights : Matrix (Fin R) (Fin F) ℚ
  bias_weights : Vec R

/-- Translation of one row of `_forward_pass` (sparse branch, the one taken):
`ACTIVATIONS[act](input_weights * x * input_scaling + bias_weights * bias)`. -/
def forwardRow {R F : ℕ} (p : ELMHyper) (σ : ℚ → ℚ) (res : Reservoir R F)
    (x : Vec F) : Vec R :=
  fun i => σ (res.input_weights.mulVec x i * p.input_scaling + res.bias_weights i * p.bias)

/-- Translation of one row of `_pass_through_reservoir`: the forward pass with
a constant `1` (bias) column prepended. -/
def reservoirStateRow {R F : ℕ} (p : ELMHyper) (σ : ℚ → ℚ) (res : Reservoir R F)
    (x : Vec F) : Vec (R + 1) :=
  Matrix.vecCons 1 (forwardRow p σ res x)

/-- Reservoir state matrix (as a list of rows) collected for a batch. -/
def stateRows {R F O : ℕ} (p : ELMHyper) (σ : ℚ → ℚ) (res : Reservoir R F)
    (batch : List (Sample F O)) : List (Vec (R + 1)) :=
  batch.map fun s => reservoirStateRow p σ res s.1

/-- Reservoir state rows paired with the targets of the batch. -/
def statePairs {R F O : ℕ} (p : ELMHyper) (σ : ℚ → ℚ) (res : Reservoir R F)
    (batch : List (Sample F O)) : List (Vec (R + 1) × Vec O) :=
  batch.map fun s => (reservoirStateRow p σ res s.1, s.2)

/-- Mutable training state of `BaseExtremeLearningMachine`, threaded
explicitly.  `Option` fields model attributes that the source sets to `None`
(arithmetic on such an attribute raises `TypeError`). -/
structure ELMState (R F O : ℕ) where
  reservoir : Reservoir R F
  xTx : Option (Matrix (Fin (R + 1)) (Fin (R + 1)) ℚ)
  xTy : Option (Matrix (Fin (R + 1)) (Fin O) ℚ)
  nSamples : ℕ
  activationsMean : Option (Vec R)
  activationsVar : Option (Vec R)
  batchActivationsMean : Option (Vec R)
  batchActivationsVar : Option (Vec R)
  output_weights : Option (Matrix (Fin (R + 1)) (Fin O) ℚ)

/-- Translation of `_initialize` / `_init_state_collection_matrices`: zeroed
statistics, `_n_samples = 0`, `output_weights_ = None`, freshly drawn
reservoir.  (`activations_mean`/`activations_var` without underscore are only
created by the non-incremental branch of `_fit_offline`, hence start absent.) -/
def initELMState {R F O : ℕ} (res : Reservoir R F) : ELMState R F O :=
  { reservoir := res
    xTx := some 0
    xTy := some 0
    nSamples := 0
    activationsMean := some 0
    activationsVar := some 0
    batchActivationsMean := none
    batchActivationsVar := none
    output_weights := none }

/-- Translation of `_compute_output_weights` (the `n_jobs = 0` branch; the
parallel branch computes the same columns independently): `pinv` inverts
`_xTx`, `ridge` inverts `_xTx + beta**2 * n_samples * I`, any other solver
falls through to the `pinv` computation after printing a warning. -/
def computeOutputWeights {d O : ℕ} (solver : String) (beta : ℚ) (nSamples : ℕ)
    (xTx : Matrix (Fin d) (Fin d) ℚ) (xTy : Matrix (Fin d) (Fin O) ℚ) :
    Option (Matrix (Fin d) (Fin O) ℚ) :=
  if solver = "pinv" then (npLinalgInv xTx).map (fun iv => iv * xTy)
  else if solver = "ridge" then
    (npLinalgInv (xTx + (beta ^ 2 * (nSamples : ℚ)) • (1 : Matrix (Fin d) (Fin d) ℚ))).map
      (fun iv => iv * xTy)
  else (npLinalgInv xTx).map (fun iv => iv * xTy)

/-- Whether `_compute_output_weights` prints
`"Warning: Not implemented. Falling back to pinv solution"` (the `else`
branch): exactly when the solver is neither `pinv` nor `ridge`. -/
def solverFallbackWarning (solver : String) : Bool :=
  !(solver == "pinv") && !(solver == "ridge")

/-- Translation of `_fit_offline`.  Steps, in source order: add the batch size
to `_n_samples`; pass the batch through the reservoir; in incremental mode add
`stateᵀ·state` / `stateᵀ·y` to the stored sums and combine the running
activation moments (note: the source reads `m = self._n_samples` *after* the
increment, so `m` already includes the current batch), in batch mode replace
the sums and write the batch moments to the non-underscore attributes; then
compute output weights (or set them to `None` when `updateOutputWeights` is
false); finally, in non-incremental mode, set `_xTx` and `_xTy` to `None`. -/
def fitOffline {R F O : ℕ} (p : ELMHyper) (σ : ℚ → ℚ) (st : ELMState R F O)
    (batch : List (Sample F O)) (incremental updateOutputWeights : Bool) :
    Option (ELMState R F O) :=
  let nSamples' := st.nSamples + batch.length
  let rows := stateRows p σ st.reservoir batch
  let core : Option (ELMState R F O) :=
    if incremental then
      match st.xTx, st.xTy, st.activationsMean, st.activationsVar with
      | some xTx0, some xTy0, some mean0, some var0 =>
          let newMean : Vec R := fun i => colMean rows i.succ
          let newVar : Vec R := fun i => colVar rows i.succ
          let m : ℚ := (nSamples' : ℚ)
          let n : ℚ := (batch.length : ℚ)
          some { st with
            xTx := some (xTx0 + gramXX rows)
            xTy := some (xTy0 + gramXY (statePairs p σ st.reservoir batch))
            nSamples := nSamples'
            activationsMean := some fun i =>
              m / (m + n) * mean0 i + n / (m + n) * newMean i
            activationsVar := some fun i =>
              m / (m + n) * var0 i + n / (m + n) * newVar i +
                m * n / (m + n) ^ 2 * (mean0 i - newMean i) ^ 2 }
      | _, _, _, _ => none
    else
      some { st with
        xTx := some (gramXX rows)
        xTy := some (gramXY (statePairs p σ st.reservoir batch))
        nSamples := nSamples'
        batchActivationsMean := some fun i => colMean rows i.succ
        batchActivationsVar := some fun i => colVar rows i.succ }
  match core with
  | none => none
  | some st1 =>
      let withWeights : Option (ELMState R F O) :=
        if updateOutputWeights then
          match st1.xTx, st1.xTy with
          | some A, some B =>
              match computeOutputWeights p.solver p.beta st1.nSamples A B with
              | none => none
              | some W => some { st1 with output_weights := some W }
          | _, _ => none
        else some { st1 with output_weights := none }
      match withWeights with
      | none => none
      | some st2 =>
          if incremental then some st2
          else some { st2 with xTx := none, xTy := none }

/-- Translation of `ESNRegressor.partial_fit` (one call, default
`update_output_weights=True`): guarded by membership of the solver in
`_OFFLINE_SOLVERS` (otherwise `AttributeError`), then `_fit` with
`incremental=True`. -/
def partialFitESN {R F O : ℕ} (p : ELMHyper) (σ : ℚ → ℚ) (st : ELMState R F O)
    (batch : List (Sample F O)) : Option (ELMState R F O) :=
  if p.solver ∈ OFFLINE_SOLVERS then fitOffline p σ st batch true true else none

/-- Sequence of `partial_fit` calls on a freshly constructed estimator: the
first call initializes the state (no stored weights yet), each call then
accumulates incrementally. -/
def runPartialFits {R F O : ℕ} (p : ELMHyper) (σ : ℚ → ℚ) (res : Reservoir R F)
    (batches : List (List (Sample F O))) : Option (ELMState R F O) :=
  batches.foldlM (fun s b => partialFitESN p σ s b) (initELMState res)

/-- Translation of `ESNRegressor.fit`: validate hyperparameters, initialize a
fresh state around the drawn reservoir, then `_fit` with `incremental=False`
and `update_output_weights=True`. -/
def regressorFit {R F O : ℕ} (p : ELMHyper) (σ : ℚ → ℚ) (res : Reservoir R F)
    (data : List (Sample F O)) : Option (ELMState R F O) :=
  match validateHyperparameters p with
  | .error _ => none
  | .ok _ => fitOffline p σ (initELMState res) data false true

/-- Translation of `_finalize`: compute output weights if absent (raising if
the statistics are already gone or inversion fails), then set `_xTx`, `_xTy`,
`_activations_mean`, `_activations_var` to `None`. -/
def finalizeELM {R F O : ℕ} (p : ELMHyper) (st : ELMState R F O) :
    Option (ELMState R F O) :=
  match st.output_weights with
  | some _ => some { st with
      xTx := none, xTy := none, activationsMean := none, activationsVar := none }
  | none =>
      match st.xTx, st.xTy with
      | some A, some B =>
          match computeOutputWeights p.solver p.beta st.nSamples A B with
          | none => none
          | some W => some { st with
              output_weights := some W
              xTx := none, xTy := none, activationsMean := none, activationsVar := none }
      | _, _ => none

/-- Attribute list passed to `check_is_fitted` by
`BaseExtremeLearningMachine.predict` (line 462). -/
def PREDICT_CHECK_ATTRS : List String :=
  ["input_weights_", "reservoir_weights_", "bias_weights_", "output_weights_"]

/-- Trailing-underscore (fitted) attributes that some method of the estimator
classes ever assigns on `self`, so that `hasattr` can hold for them after
fitting: `input_weights_`, `bias_weights_`, `output_weights_` (set by
`_initialize`, lines 160-162), `n_outputs_` (lines 151/153, 233),
`is_fitted_` (line 241) and `classes_` (line 573, classifier only).  The name
`reservoir_weights_` occurs in the source only inside the two
`check_is_fitted` attribute lists (lines 462 and 615) and is assigned by no
code path. -/
def ASSIGNED_FITTED_ATTRS : List String :=
  ["input_weights_", "bias_weights_", "output_weights_", "n_outputs_", "is_fitted_",
    "classes_"]

/-- Translation of `sklearn.utils.validation.check_is_fitted` with an explicit
attribute list and the default `all_or_any=all`: succeeds iff every listed
attribute exists on the estimator. -/
def checkIsFitted (attrs : List String) : Bool :=
  attrs.all fun a => ASSIGNED_FITTED_ATTRS.contains a

/-- Translation of `BaseExtremeLearningMachine.predict` composed with
`_predict`: first the `check_is_fitted` call of line 462 (which raises
`NotFittedError` whenever one of the listed attributes — in particular the
never-assigned `reservoir_weights_` — is missing), then `NotFittedError` if
output weights are absent or `output_weights_.any()` is false (all entries
zero), otherwise `reservoir_state · output_weights` row by row. -/
def predictBase {R F O : ℕ} (p : ELMHyper) (σ : ℚ → ℚ) (st : ELMState R F O)
    (X : List (Vec F)) : Option (List (Vec O)) :=
  if checkIsFitted PREDICT_CHECK_ATTRS then
    match st.output_weights with
    | none => none
    | some W =>
        if ∀ i j, W i j = 0 then none
        else some (X.map fun x => fun o => ∑ i, reservoirStateRow p σ st.reservoir x i * W i o)
  else none

/-- Translation of `ESNRegressor.predict` for a single output
(`n_outputs_ == 1`): the base prediction followed by `ravel()`. -/
def regressorPredict {R F : ℕ} (p : ELMHyper) (σ : ℚ → ℚ) (st : ELMState R F 1)
    (X : List (Vec F)) : Option (List ℚ) :=
  (predictBase p σ st X).map fun l => l.map fun v => v 0

/-- Mutable state of `IncrementalRegression`: `_K`, `_P`, `_output_weights`. -/
structure IRState (d O : ℕ) where
  K : Option (Matrix (Fin d) (Fin d) ℚ)
  P : Option (Matrix (Fin d) (Fin d) ℚ)
  output_weights : Option (Matrix (Fin d) (Fin O) ℚ)

/-- Translation of `IncrementalRegression.__init__`: all three state
attributes start as `None`. -/
def irInit (d O : ℕ) : IRState d O :=
  { K := none, P := none, output_weights := none }

/-- Translation of `_preprocessing` with `fit_intercept=True` (and
`normalize=False`): `np.hstack((X, ones))` appends a constant `1` column to
each row. -/
def addIntercept {F : ℕ} (x : Vec F) : Vec (F + 1) :=
  Fin.snoc x 1

/-- Row-times-matrix product `x · W`, the per-row content of
`safe_sparse_dot(X, W)`. -/
def applyWeights {d O : ℕ} (W : Matrix (Fin d) (Fin O) ℚ) (x : Vec d) : Vec O :=
  fun o => ∑ i, x i * W i o

/-- Translation of `IncrementalRegression.partial_fit` on preprocessed rows
(`X` after `_preprocessing`; `normalize=False` so preprocessing is the
intercept column at most, applied by the caller).  In source order: on
`reset`, drop `_K` and `_P` (but not `_output_weights`); add `XᵀX` into `_K`
(or start it); recompute `_P = inv(_K + alpha**2 * I)` from scratch; then
either initialize the weights as `P·Xᵀy` or correct them by
`P·Xᵀ(y − X·W)`. -/
def irPartialFit {d O : ℕ} (alpha : ℚ) (st : IRState d O) (X : List (Vec d))
    (y : List (Vec O)) (reset : Bool) : Option (IRState d O) :=
  let K0 : Option (Matrix (Fin d) (Fin d) ℚ) := if reset then none else st.K
  let Knew : Matrix (Fin d) (Fin d) ℚ :=
    match K0 with
    | none => gramXX X
    | some K => K + gramXX X
  match npLinalgInv (Knew + alpha ^ 2 • (1 : Matrix (Fin d) (Fin d) ℚ)) with
  | none => none
  | some P =>
      let W' : Matrix (Fin d) (Fin O) ℚ :=
        match st.output_weights with
        | none => P * gramXY (X.zip y)
        | some W =>
            W + P * gramXY (X.zip ((X.zip y).map fun s => fun o => s.2 o - applyWeights W s.1 o))
      some { K := some Knew, P := some P, output_weights := some W' }

/-- Translation of `IncrementalRegression.fit`: a `partial_fit` with
`reset=True` (the `check_X_y` glue is out of scope). -/
def irFit {d O : ℕ} (alpha : ℚ) (st : IRState d O) (X : List (Vec d))
    (y : List (Vec O)) : Option (IRState d O) :=
  irPartialFit alpha st X y true

/-- Concrete reservoir draw with input weight `1` (so that the single hidden
unit actually sees the input), used to exhibit the streaming-moment bug. -/
def reservoirOneC : Reservoir 1 1 := ⟨Matrix.of ![![1]], ![0]⟩

/-- Hyperparameters of the concrete fit-then-predict scenario of the spec:
`hidden_size = 50`, `k_in = 2`, solver `ridge`, `beta = 1e-3`, remaining
parameters at their defaults. -/
def hyperScenarioC : ELMHyper := ⟨2, 1, 0, 50, "tanh", "ridge", 1 / 1000⟩

/-- Concrete all-zero reservoir draw for the 50-unit, 5-feature scenario. -/
def reservoirScenarioC : Reservoir 50 5 := ⟨0, 0⟩

/-- Scenario dataset of 100 samples, all-zero inputs and all-one labels. -/
def dataOneC : List (Sample 5 1) := List.replicate 100 (0, fun _ => 1)

/-- Concrete hyperparameter configuration used by witnesses and
counterexamples: one input connection, unit input scaling, zero bias scaling,
one hidden unit, identity activation, ridge solver, `beta = 1`. -/
def hyperC : ELMHyper := ⟨1, 1, 0, 1, "identity", "ridge", 1⟩

/-- Concrete reservoir draw (all-zero input weight, zero bias weight) used by
witnesses and counterexamples. -/
def reservoirC : Reservoir 1 1 := ⟨Matrix.of ![![0]], ![0]⟩

/-- Concrete already-fitted training state (zero statistics, stored zero
output weights) used to exercise `finalizeELM`. -/
def fittedStateC : ELMState 1 1 1 :=
  { reservoir := reservoirC
    xTx := some 0
    xTy := some 0
    nSamples := 0
    activationsMean := some 0
    activationsVar := some 0
    batchActivationsMean := none
    batchActivationsVar := none
    output_weights := some 0 }


/-! Helper lemmas: concatenation of data splits through the accumulated
statistics, and structural specifications of one `_fit_offline` call. -/

lemma gramXX_append {d : ℕ} (a b : List (Vec d)) :
    gramXX (a ++ b) = gramXX a + gramXX b := by
  simp [gramXX]

lemma gramXY_append {d O : ℕ} (a b : List (Vec d × Vec O)) :
    gramXY (a ++ b) = gramXY a + gramXY b := by
  simp [gramXY]

lemma stateRows_append {R F O : ℕ} (p : ELMHyper) (σ : ℚ → ℚ) (res : Reservoir R F)
    (a b : List (Sample F O)) :
    stateRows p σ res (a ++ b) = stateRows p σ res a ++ stateRows p σ res b := by
  simp [stateRows]

lemma statePairs_append {R F O : ℕ} (p : ELMHyper) (σ : ℚ → ℚ) (res : Reservoir R F)
    (a b : List (Sample F O)) :
    statePairs p σ res (a ++ b) = statePairs p σ res a ++ statePairs p σ res b := by
  simp [statePairs]

lemma fitOffline_incr_spec {R F O : ℕ} (p : ELMHyper) (σ : ℚ → ℚ)
    (st s : ELMState R F O) (b : List (Sample F O))
    (h : fitOffline p σ st b true true = some s) :
    ∃ A B W,
      st.xTx = some A ∧ st.xTy = some B ∧
      s.reservoir = st.reservoir ∧
      s.nSamples = st.nSamples + b.length ∧
      s.xTx = some (A + gramXX (stateRows p σ st.reservoir b)) ∧
      s.xTy = some (B + gramXY (statePairs p σ st.reservoir b)) ∧
      computeOutputWeights p.solver p.beta (st.nSamples + b.length)
        (A + gramXX (stateRows p σ st.reservoir b))
        (B + gramXY (statePairs p σ st.reservoir b)) = some W ∧
      s.output_weights = some W := by
  obtain ⟨A, hA⟩ : ∃ A, st.xTx = some A := by
    rcases hx : st.xTx with _ | A
    · exact absurd h (by simp [fitOffline, hx])
    · exact ⟨A, rfl⟩
  obtain ⟨B, hB⟩ : ∃ B, st.xTy = some B := by
    rcases hx : st.xTy with _ | B
    · exact absurd h (by simp [fitOffline, hA, hx])
    · exact ⟨B, rfl⟩
  obtain ⟨M, hM⟩ : ∃ M, st.activationsMean = some M := by
    rcases hx : st.activationsMean with _ | M
    · exact absurd h (by simp [fitOffline, hA, hB, hx])
    · exact ⟨M, rfl⟩
  obtain ⟨V, hV⟩ : ∃ V, st.activationsVar = some V := by
    rcases hx : st.activationsVar with _ | V
    · exact absurd h (by simp [fitOffline, hA, hB, hM, hx])
    · exact ⟨V, rfl⟩
  revert h
  simp only [fitOffline, hA, hB, hM, hV, if_true]
  split
  · intro h; exact absurd h (by simp)
  · rename_i st2 heq
    intro h
    rw [Option.some_inj] at h
    subst h
    split at heq
    · exact absurd heq (by simp)
    · rename_i W hW
      rw [Option.some_inj] at heq
      subst heq
      exact ⟨A, B, W, rfl, rfl, rfl, rfl, rfl, rfl, hW, rfl⟩

lemma fitOffline_batch_eq {R F O : ℕ} (p : ELMHyper) (σ : ℚ → ℚ)
    (st : ELMState R F O) (b : List (Sample F O)) :
    fitOffline p σ st b false true =
      (match computeOutputWeights p.solver p.beta (st.nSamples + b.length)
          (gramXX (stateRows p σ st.reservoir b))
          (gramXY (statePairs p σ st.reservoir b)) with
        | none => none
        | some W => some { st with
            xTx := none
            xTy := none
            nSamples := st.nSamples + b.length
            batchActivationsMean := some fun i => colMean (stateRows p σ st.reservoir b) i.succ
            batchActivationsVar := some fun i => colVar (stateRows p σ st.reservoir b) i.succ
            output_weights := some W }) := by
  rcases hW : computeOutputWeights p.solver p.beta (st.nSamples + b.length)
      (gramXX (stateRows p σ st.reservoir b))
      (gramXY (statePairs p σ st.reservoir b)) with _ | W <;>
    simp only [fitOffline, Bool.false_eq_true, if_false, if_true, hW]

lemma fitOffline_incr_eq {R F O : ℕ} (p : ELMHyper) (σ : ℚ → ℚ)
    (st : ELMState R F O) (b : List (Sample F O))
    (A : Matrix (Fin (R + 1)) (Fin (R + 1)) ℚ) (B : Matrix (Fin (R + 1)) (Fin O) ℚ)
    (M V : Vec R)
    (hA : st.xTx = some A) (hB : st.xTy = some B)
    (hM : st.activationsMean = some M) (hV : st.activationsVar = some V) :
    fitOffline p σ st b true true =
      (match computeOutputWeights p.solver p.beta (st.nSamples + b.length)
          (A + gramXX (stateRows p σ st.reservoir b))
          (B + gramXY (statePairs p σ st.reservoir b)) with
        | none => none
        | some W => some { st with
            xTx := some (A + gramXX (stateRows p σ st.reservoir b))
            xTy := some (B + gramXY (statePairs p σ st.reservoir b))
            nSamples := st.nSamples + b.length
            activationsMean := some fun i =>
              ((st.nSamples + b.length : ℕ) : ℚ) / (((st.nSamples + b.length : ℕ) : ℚ) + (b.length : ℚ)) * M i +
                (b.length : ℚ) / (((st.nSamples + b.length : ℕ) : ℚ) + (b.length : ℚ)) *
                  colMean (stateRows p σ st.reservoir b) i.succ
            activationsVar := some fun i =>
              ((st.nSamples + b.length : ℕ) : ℚ) / (((st.nSamples + b.length : ℕ) : ℚ) + (b.length : ℚ)) * V i +
                (b.length : ℚ) / (((st.nSamples + b.length : ℕ) : ℚ) + (b.length : ℚ)) *
                  colVar (stateRows p σ st.reservoir b) i.succ +
                ((st.nSamples + b.length : ℕ) : ℚ) * (b.length : ℚ) /
                    (((st.nSamples + b.length : ℕ) : ℚ) + (b.length : ℚ)) ^ 2 *
                  (M i - colMean (stateRows p σ st.reservoir b) i.succ) ^ 2
            output_weights := some W }) := by
  rcases hW : computeOutputWeights p.solver p.beta (st.nSamples + b.length)
      (A + gramXX (stateRows p σ st.reservoir b))
      (B + gramXY (statePairs p σ st.reservoir b)) with _ | W <;>
    simp only [fitOffline, hA, hB, hM, hV, if_true, hW]

lemma fitOffline_batch_spec {R F O : ℕ} (p : ELMHyper) (σ : ℚ → ℚ)
    (st s : ELMState R F O) (b : List (Sample F O))
    (h : fitOffline p σ st b false true = some s) :
    ∃ W, computeOutputWeights p.solver p.beta (st.nSamples + b.length)
        (gramXX (stateRows p σ st.reservoir b))
        (gramXY (statePairs p σ st.reservoir b)) = some W ∧
      s.reservoir = st.reservoir ∧
      s.nSamples = st.nSamples + b.length ∧
      s.xTx = none ∧ s.xTy = none ∧
      s.output_weights = some W := by
  rw [fitOffline_batch_eq] at h
  rcases hW : computeOutputWeights p.solver p.beta (st.nSamples + b.length)
      (gramXX (stateRows p σ st.reservoir b))
      (gramXY (statePairs p σ st.reservoir b)) with _ | W <;>
    rw [hW] at h
  · exact absurd h (by simp)
  · rw [Option.some_inj] at h
    subst h
    exact ⟨W, rfl, rfl, rfl, rfl, rfl, rfl⟩

lemma fitOffline_batch_succeeds {R F O : ℕ} (p : ELMHyper) (σ : ℚ → ℚ)
    (st : ELMState R F O) (b : List (Sample F O)) (n : ℕ)
    (G : Matrix (Fin (R + 1)) (Fin (R + 1)) ℚ) (H W : Matrix (Fin (R + 1)) (Fin O) ℚ)
    (hn : n = st.nSamples + b.length)
    (hG : G = gramXX (stateRows p σ st.reservoir b))
    (hH : H = gramXY (statePairs p σ st.reservoir b))
    (hW : computeOutputWeights p.solver p.beta n G H = some W) :
    ∃ s, fitOffline p σ st b false true = some s ∧
      s.output_weights = some W ∧ s.xTx = none ∧ s.xTy = none ∧
      s.reservoir = st.reservoir ∧ s.nSamples = st.nSamples + b.length := by
  subst hn; subst hG; subst hH
  have hsome : (fitOffline p σ st b false true).isSome := by
    rw [fitOffline_batch_eq, hW]; rfl
  obtain ⟨s, hs⟩ := Option.isSome_iff_exists.mp hsome
  obtain ⟨W2, hW2, h1, h2, h3, h4, h5⟩ := fitOffline_batch_spec p σ st s b hs
  rw [hW, Option.some_inj] at hW2
  subst hW2
  exact ⟨s, hs, h5, h3, h4, h1, h2⟩

lemma fitOffline_incr_succeeds {R F O : ℕ} (p : ELMHyper) (σ : ℚ → ℚ)
    (st : ELMState R F O) (b : List (Sample F O))
    (A : Matrix (Fin (R + 1)) (Fin (R + 1)) ℚ) (B : Matrix (Fin (R + 1)) (Fin O) ℚ)
    (M V : Vec R) (W : Matrix (Fin (R + 1)) (Fin O) ℚ)
    (hA : st.xTx = some A) (hB : st.xTy = some B)
    (hM : st.activationsMean = some M) (hV : st.activationsVar = some V)
    (hW : computeOutputWeights p.solver p.beta (st.nSamples + b.length)
        (A + gramXX (stateRows p σ st.reservoir b))
        (B + gramXY (statePairs p σ st.reservoir b)) = some W) :
    ∃ s, fitOffline p σ st b true true = some s := by
  have hsome : (fitOffline p σ st b true true).isSome := by
    rw [fitOffline_incr_eq p σ st b A B M V hA hB hM hV, hW]; rfl
  exact Option.isSome_iff_exists.mp hsome

lemma runPartialFits_go_spec {R F O : ℕ} (p : ELMHyper) (σ : ℚ → ℚ)
    (hmem : p.solver ∈ OFFLINE_SOLVERS) (batches : List (List (Sample F O))) :
    ∀ (st s : ELMState R F O) (A : Matrix (Fin (R + 1)) (Fin (R + 1)) ℚ)
      (B : Matrix (Fin (R + 1)) (Fin O) ℚ),
      batches ≠ [] →
      List.foldlM (fun s b => partialFitESN p σ s b) st batches = some s →
      st.xTx = some A → st.xTy = some B →
      ∃ W,
        s.reservoir = st.reservoir ∧
        s.nSamples = st.nSamples + batches.flatten.length ∧
        s.xTx = some (A + gramXX (stateRows p σ st.reservoir batches.flatten)) ∧
        s.xTy = some (B + gramXY (statePairs p σ st.reservoir batches.flatten)) ∧
        computeOutputWeights p.solver p.beta (st.nSamples + batches.flatten.length)
          (A + gramXX (stateRows p σ st.reservoir batches.flatten))
          (B + gramXY (statePairs p σ st.reservoir batches.flatten)) = some W ∧
        s.output_weights = some W := by
  induction batches with
  | nil => intro st s A B hne _ _ _; exact absurd rfl hne
  | cons b bs ih =>
    intro st s A B _ hfold hA hB
    rw [List.foldlM_cons] at hfold
    obtain ⟨s₁, hstep, hrest⟩ := Option.bind_eq_some.mp hfold
    have hstep' : fitOffline p σ st b true true = some s₁ := by
      rwa [partialFitESN, if_pos hmem] at hstep
    obtain ⟨A₁, B₁, W₁, hA₁, hB₁, hres₁, hn₁, hxTx₁, hxTy₁, hcomp₁, how₁⟩ :=
      fitOffline_incr_spec p σ st s₁ b hstep'
    rw [hA, Option.some_inj] at hA₁
    rw [hB, Option.some_inj] at hB₁
    subst hA₁; subst hB₁
    rcases bs with _ | ⟨b₂, bs'⟩
    · rw [List.foldlM_nil] at hrest
      have hs : s₁ = s := by simpa using hrest
      subst hs
      refine ⟨W₁, hres₁, ?_, ?_, ?_, ?_, how₁⟩
      · simpa using hn₁
      · simpa using hxTx₁
      · simpa using hxTy₁
      · simpa using hcomp₁
    · obtain ⟨W, hres, hn, hxTx, hxTy, hcomp, how⟩ :=
        ih s₁ s (A + gramXX (stateRows p σ st.reservoir b))
          (B + gramXY (statePairs p σ st.reservoir b)) (by simp) hrest hxTx₁ hxTy₁
      rw [hres₁] at hres hxTx hxTy hcomp
      rw [hn₁] at hn hcomp
      refine ⟨W, hres, ?_, ?_, ?_, ?_, how⟩
      · rw [hn]
        simp [List.length_append, Nat.add_assoc]
      · rw [hxTx]
        simp [stateRows_append, gramXX_append, add_assoc]
      · rw [hxTy]
        simp [statePairs_append, gramXY_append, add_assoc]
      · rw [← hcomp]
        congr 1 <;>
          simp [stateRows_append, statePairs_append, gramXX_append, gramXY_append,
            List.length_append, add_assoc]

/-! Helper lemmas: the ridge-regularized Gram matrix is nonsingular over ℚ,
and `matInv` is a genuine two-sided inverse on nonsingular matrices. -/

lemma outer_quadform {d : ℕ} (r v : Vec d) :
    v ⬝ᵥ (Matrix.of fun i j => r i * r j).mulVec v = (r ⬝ᵥ v) ^ 2 := by
  simp only [Matrix.mulVec, Matrix.dotProduct, Matrix.of_apply, Finset.mul_sum, sq,
    Finset.sum_mul]
  rw [Finset.sum_comm]
  apply Finset.sum_congr rfl
  intro i _
  apply Finset.sum_congr rfl
  intro j _
  ring

lemma quadform_gram {d : ℕ} (rows : List (Vec d)) (v : Vec d) :
    v ⬝ᵥ (gramXX rows).mulVec v = ((rows.map fun r => (r ⬝ᵥ v) ^ 2)).sum := by
  induction rows with
  | nil => simp [gramXX]
  | cons r t iht =>
    have hg : gramXX (r :: t) = (Matrix.of fun i j => r i * r j) + gramXX t := by
      simp [gramXX]
    rw [hg, Matrix.add_mulVec, Matrix.dotProduct_add, outer_quadform, iht]
    simp

lemma ridge_gram_det_ne_zero {d : ℕ} (rows : List (Vec d)) (lam : ℚ) (hl : 0 < lam) :
    (gramXX rows + lam • (1 : Matrix (Fin d) (Fin d) ℚ)).det ≠ 0 := by
  intro hdet
  obtain ⟨v, hv, hmul⟩ := Matrix.exists_mulVec_eq_zero_iff.mpr hdet
  have hq : v ⬝ᵥ (gramXX rows + lam • (1 : Matrix (Fin d) (Fin d) ℚ)).mulVec v = 0 := by
    rw [hmul]; simp
  have hsm : v ⬝ᵥ (lam • (1 : Matrix (Fin d) (Fin d) ℚ)).mulVec v = lam * (v ⬝ᵥ v) := by
    rw [Matrix.smul_mulVec_assoc, Matrix.one_mulVec]
    simp only [Matrix.dotProduct, Pi.smul_apply, smul_eq_mul, Finset.mul_sum]
    exact Finset.sum_congr rfl fun i _ => by ring
  rw [Matrix.add_mulVec, Matrix.dotProduct_add, quadform_gram, hsm] at hq
  have h1 : 0 ≤ ((rows.map fun r => (r ⬝ᵥ v) ^ 2)).sum := by
    apply List.sum_nonneg
    intro x hx
    obtain ⟨r, _, rfl⟩ := List.mem_map.mp hx
    positivity
  have h2 : 0 ≤ v ⬝ᵥ v := by
    simp only [Matrix.dotProduct]
    exact Finset.sum_nonneg fun i _ => mul_self_nonneg (v i)
  have h3 : v ⬝ᵥ v = 0 := by nlinarith
  exact hv (Matrix.dotProduct_self_eq_zero.mp h3)

lemma matInv_eq_inv {m : ℕ} (A : Matrix (Fin m) (Fin m) ℚ) : matInv A = A⁻¹ := by
  simp [matInv, Matrix.inv_def, Ring.inverse_eq_inv']

lemma mul_matInv_of_det_ne_zero {m : ℕ} (A : Matrix (Fin m) (Fin m) ℚ)
    (h : A.det ≠ 0) : A * matInv A = 1 := by
  rw [matInv_eq_inv]
  exact Matrix.mul_nonsing_inv A (isUnit_iff_ne_zero.mpr h)

lemma matInv_mul_of_det_ne_zero {m : ℕ} (A : Matrix (Fin m) (Fin m) ℚ)
    (h : A.det ≠ 0) : matInv A * A = 1 := by
  rw [matInv_eq_inv]
  exact Matrix.nonsing_inv_mul A (isUnit_iff_ne_zero.mpr h)

lemma computeOutputWeights_pinv {d O : ℕ} (beta : ℚ) (n : ℕ)
    (xTx : Matrix (Fin d) (Fin d) ℚ) (xTy : Matrix (Fin d) (Fin O) ℚ)
    (hdet : xTx.det ≠ 0) :
    computeOutputWeights "pinv" beta n xTx xTy = some (matInv xTx * xTy) := by
  rw [computeOutputWeights, if_pos rfl, npLinalgInv, if_neg hdet]
  rfl

lemma computeOutputWeights_pinv_singular {d O : ℕ} (beta : ℚ) (n : ℕ)
    (xTx : Matrix (Fin d) (Fin d) ℚ) (xTy : Matrix (Fin d) (Fin O) ℚ)
    (hdet : xTx.det = 0) :
    computeOutputWeights "pinv" beta n xTx xTy = none := by
  rw [computeOutputWeights, if_pos rfl, npLinalgInv, if_pos hdet]
  rfl

lemma computeOutputWeights_ridge {d O : ℕ} (beta : ℚ) (n : ℕ)
    (xTx : Matrix (Fin d) (Fin d) ℚ) (xTy : Matrix (Fin d) (Fin O) ℚ)
    (hdet : (xTx + (beta ^ 2 * (n : ℚ)) • (1 : Matrix (Fin d) (Fin d) ℚ)).det ≠ 0) :
    computeOutputWeights "ridge" beta n xTx xTy =
      some (matInv (xTx + (beta ^ 2 * (n : ℚ)) • (1 : Matrix (Fin d) (Fin d) ℚ)) * xTy) := by
  rw [computeOutputWeights, if_neg (by decide), if_pos rfl, npLinalgInv, if_neg hdet]
  rfl

lemma fitOffline_init_incr_ridge_succeeds {R F O : ℕ} (p : ELMHyper) (σ : ℚ → ℚ)
    (res : Reservoir R F) (b : List (Sample F O))
    (hsolver : p.solver = "ridge") (hbeta : p.beta ≠ 0) (hb : b ≠ []) :
    ∃ s, fitOffline p σ (initELMState res : ELMState R F O) b true true = some s := by
  have hlen : (0:ℚ) < (((initELMState res : ELMState R F O).nSamples + b.length : ℕ) : ℚ) := by
    have h1 : 0 < b.length := List.length_pos.mpr hb
    have h2 : 0 < (initELMState res : ELMState R F O).nSamples + b.length := by
      simp [initELMState]
      omega
    exact_mod_cast h2
  have hlam : 0 < p.beta ^ 2 *
      (((initELMState res : ELMState R F O).nSamples + b.length : ℕ) : ℚ) := by
    have : 0 < p.beta ^ 2 := by positivity
    positivity
  have hdet := ridge_gram_det_ne_zero
    (stateRows p σ (initELMState res : ELMState R F O).reservoir b)
    (p.beta ^ 2 * (((initELMState res : ELMState R F O).nSamples + b.length : ℕ) : ℚ)) hlam
  have hdet' : (((0 : Matrix (Fin (R + 1)) (Fin (R + 1)) ℚ) +
      gramXX (stateRows p σ (initELMState res : ELMState R F O).reservoir b)) +
      (p.beta ^ 2 * (((initELMState res : ELMState R F O).nSamples + b.length : ℕ) : ℚ)) •
        (1 : Matrix (Fin (R + 1)) (Fin (R + 1)) ℚ)).det ≠ 0 := by
    rw [zero_add]; exact hdet
  have hcomp : computeOutputWeights p.solver p.beta
      ((initELMState res : ELMState R F O).nSamples + b.length)
      ((0 : Matrix (Fin (R + 1)) (Fin (R + 1)) ℚ) +
        gramXX (stateRows p σ (initELMState res : ELMState R F O).reservoir b))
      ((0 : Matrix (Fin (R + 1)) (Fin O) ℚ) +
        gramXY (statePairs p σ (initELMState res : ELMState R F O).reservoir b)) =
      some (matInv (((0 : Matrix (Fin (R + 1)) (Fin (R + 1)) ℚ) +
          gramXX (stateRows p σ (initELMState res : ELMState R F O).reservoir b)) +
          (p.beta ^ 2 * (((initELMState res : ELMState R F O).nSamples + b.length : ℕ) : ℚ)) •
            (1 : Matrix (Fin (R + 1)) (Fin (R + 1)) ℚ)) *
        ((0 : Matrix (Fin (R + 1)) (Fin O) ℚ) +
          gramXY (statePairs p σ (initELMState res : ELMState R F O).reservoir b))) := by
    rw [hsolver]
    exact computeOutputWeights_ridge p.beta _ _ _ hdet'
  exact fitOffline_incr_succeeds p σ (initELMState res) b 0 0 0 0 _
    rfl rfl rfl rfl hcomp

lemma runPartialFits_single_ridge_succeeds {R F O : ℕ} (p : ELMHyper) (σ : ℚ → ℚ)
    (res : Reservoir R F) (b : List (Sample F O))
    (hsolver : p.solver = "ridge") (hbeta : p.beta ≠ 0) (hb : b ≠ []) :
    ∃ s, runPartialFits p σ res [b] = some s := by
  have hmem : p.solver ∈ OFFLINE_SOLVERS := by rw [hsolver]; decide
  obtain ⟨s, hs⟩ := fitOffline_init_incr_ridge_succeeds p σ res b hsolver hbeta hb
  refine ⟨s, ?_⟩
  unfold runPartialFits
  rw [List.foldlM_cons, partialFitESN, if_pos hmem, hs]
  simp

/-- C1: for every hyperparameter configuration with solver `pinv` or `ridge`
that passes validation, every fixed reservoir draw (same random seed) and
every split of a dataset into consecutive nonempty batch lists, a single
non-incremental `fit` on the concatenated data and a sequence of
`partial_fit` calls on the batches produce literally equal output weight
matrices (exact arithmetic), provided the incremental run completes. -/
theorem batch_incremental_equivalence {R F O : ℕ} (p : ELMHyper) (σ : ℚ → ℚ)
    (res : Reservoir R F) (batches : List (List (Sample F O))) (s : ELMState R F O)
    (hsolver : p.solver = "pinv" ∨ p.solver = "ridge")
    (hval : validateHyperparameters p = Except.ok ())
    (hne : batches ≠ [])
    (hrun : runPartialFits p σ res batches = some s) :
    ∃ s' W, regressorFit p σ res batches.flatten = some s' ∧
      s'.output_weights = s.output_weights ∧ s.output_weights = some W := by
  have hmem : p.solver ∈ OFFLINE_SOLVERS := by
    rcases hsolver with h | h <;> rw [h] <;> decide
  unfold runPartialFits at hrun
  obtain ⟨W, hres, hn, hxTx, hxTy, hcomp, how⟩ :=
    runPartialFits_go_spec p σ hmem batches (initELMState res) s 0 0 hne hrun rfl rfl
  have hW2 : computeOutputWeights p.solver p.beta batches.flatten.length
      (gramXX (stateRows p σ res batches.flatten))
      (gramXY (statePairs p σ res batches.flatten)) = some W := by
    simpa [initELMState] using hcomp
  obtain ⟨s', hfit, hout, _, _, _, _⟩ :=
    fitOffline_batch_succeeds p σ (initELMState res) batches.flatten
      batches.flatten.length (gramXX (stateRows p σ res batches.flatten))
      (gramXY (statePairs p σ res batches.flatten)) W
      (by simp [initELMState]) (by simp [initELMState]) (by simp [initELMState]) hW2
  refine ⟨s', W, ?_, ?_, how⟩
  · simp only [regressorFit, hval]
    exact hfit
  · rw [hout, how]

/-- Witness for C1 at a concrete instance: one hidden unit, identity
activation, ridge solver with `beta = 1`, a single one-sample batch. -/
theorem batch_incremental_equivalence_witness :
    (⟨1, 1, 0, 1, "identity", "ridge", 1⟩ : ELMHyper).solver = "pinv" ∨
      (⟨1, 1, 0, 1, "identity", "ridge", 1⟩ : ELMHyper).solver = "ridge" ∧
    ∃ (s s' : ELMState 1 1 1) (W : Matrix (Fin 2) (Fin 1) ℚ),
      runPartialFits ⟨1, 1, 0, 1, "identity", "ridge", 1⟩ id
        ⟨Matrix.of ![![0]], ![0]⟩ [[(![0], ![0])]] = some s ∧
      regressorFit ⟨1, 1, 0, 1, "identity", "ridge", 1⟩ id
        ⟨Matrix.of ![![0]], ![0]⟩ [[(![0], ![0])]].flatten = some s' ∧
      s'.output_weights = s.output_weights ∧ s.output_weights = some W := by
  right
  refine ⟨rfl, ?_⟩
  obtain ⟨s, hs⟩ := runPartialFits_single_ridge_succeeds
    (⟨1, 1, 0, 1, "identity", "ridge", 1⟩ : ELMHyper) id
    (⟨Matrix.of ![![0]], ![0]⟩ : Reservoir 1 1) [((![0] : Vec 1), (![0] : Vec 1))]
    rfl (by norm_num) (by simp)
  obtain ⟨s', W, hfit, hout, hW⟩ := batch_incremental_equivalence
    (⟨1, 1, 0, 1, "identity", "ridge", 1⟩ : ELMHyper) id
    (⟨Matrix.of ![![0]], ![0]⟩ : Reservoir 1 1) [[(![0], ![0])]] s
    (Or.inr rfl) rfl (by simp) hs
  exact ⟨s, s', W, hs, hfit, hout, hW⟩

lemma regressorFit_ridge_spec {R F O : ℕ} (p : ELMHyper) (σ : ℚ → ℚ)
    (res : Reservoir R F) (data : List (Sample F O))
    (hsolver : p.solver = "ridge") (hbeta : p.beta ≠ 0) (hdata : data ≠ [])
    (hval : validateHyperparameters p = Except.ok ()) :
    ∃ s, regressorFit p σ res data = some s ∧
      s.xTx = none ∧ s.xTy = none ∧ s.reservoir = res ∧
      s.output_weights = some
        (matInv (gramXX (stateRows p σ res data) +
            (p.beta ^ 2 * ((data.length : ℕ) : ℚ)) • (1 : Matrix (Fin (R + 1)) (Fin (R + 1)) ℚ)) *
          gramXY (statePairs p σ res data)) := by
  have hlam : 0 < p.beta ^ 2 * ((data.length : ℕ) : ℚ) := by
    have h1 : 0 < data.length := List.length_pos.mpr hdata
    have h2 : (0:ℚ) < ((data.length : ℕ) : ℚ) := by exact_mod_cast h1
    positivity
  have hdet := ridge_gram_det_ne_zero (stateRows p σ res data)
    (p.beta ^ 2 * ((data.length : ℕ) : ℚ)) hlam
  have hcomp : computeOutputWeights p.solver p.beta data.length
      (gramXX (stateRows p σ res data)) (gramXY (statePairs p σ res data)) =
      some (matInv (gramXX (stateRows p σ res data) +
          (p.beta ^ 2 * ((data.length : ℕ) : ℚ)) • (1 : Matrix (Fin (R + 1)) (Fin (R + 1)) ℚ)) *
        gramXY (statePairs p σ res data)) := by
    rw [hsolver]
    exact computeOutputWeights_ridge p.beta data.length _ _ hdet
  obtain ⟨s, hfit, hout, hxn, hyn, hres, _⟩ :=
    fitOffline_batch_succeeds p σ (initELMState res) data data.length
      (gramXX (stateRows p σ res data)) (gramXY (statePairs p σ res data)) _
      (by simp [initELMState]) (by simp [initELMState]) (by simp [initELMState]) hcomp
  refine ⟨s, ?_, hxn, hyn, ?_, hout⟩
  · simp only [regressorFit, hval]
    exact hfit
  · rw [hres]; rfl

/-- C4 counterexample: at a concrete instance (one hidden unit, identity
activation, `ridge` solver, one training sample), a plain non-incremental
`fit` terminates with `_xTx = None` and `_xTy = None`, refuting the claim that
the sufficient statistics remain defined after `fit` until `finalize`. -/
theorem fit_discards_statistics_counterexample :
    ∃ st : ELMState 1 1 1,
      regressorFit ⟨1, 1, 0, 1, "identity", "ridge", 1⟩ id
        ⟨Matrix.of ![![0]], ![0]⟩ [(![0], ![0])] = some st ∧
      st.xTx = none ∧ st.xTy = none := by
  obtain ⟨s, hfit, hx, hy, _, _⟩ := regressorFit_ridge_spec
    (⟨1, 1, 0, 1, "identity", "ridge", 1⟩ : ELMHyper) id
    (⟨Matrix.of ![![0]], ![0]⟩ : Reservoir 1 1) [(![0], ![0])]
    rfl (by norm_num) (by simp) rfl
  exact ⟨s, hfit, hx, hy⟩

/-- C4 amended: the sufficient statistics `_xTx`, `_xTy` are set to `None` at
the end of every successful non-incremental `_fit_offline` call (so they are
already discarded when `fit` returns); they are retained (still present) after
every successful incremental call; and `_finalize` also discards them. -/
theorem fit_statistics_amended {R F O : ℕ} (p : ELMHyper) (σ : ℚ → ℚ)
    (st s : ELMState R F O) (batch : List (Sample F O)) :
    (fitOffline p σ st batch false true = some s → s.xTx = none ∧ s.xTy = none) ∧
    (fitOffline p σ st batch true true = some s → s.xTx.isSome ∧ s.xTy.isSome) ∧
    (finalizeELM p st = some s → s.xTx = none ∧ s.xTy = none) := by
  refine ⟨?_, ?_, ?_⟩
  · intro h
    obtain ⟨W, _, _, _, h3, h4, _⟩ := fitOffline_batch_spec p σ st s batch h
    exact ⟨h3, h4⟩
  · intro h
    obtain ⟨A, B, W, _, _, _, _, h5, h6, _, _⟩ := fitOffline_incr_spec p σ st s batch h
    exact ⟨by rw [h5]; rfl, by rw [h6]; rfl⟩
  · intro h
    revert h
    unfold finalizeELM
    rcases hw : st.output_weights with _ | W
    · rcases hA : st.xTx with _ | A
      · intro h; exact absurd h (by simp)
      · rcases hB : st.xTy with _ | B
        · intro h; exact absurd h (by simp)
        · rcases hW : computeOutputWeights p.solver p.beta st.nSamples A B with _ | W
          · intro h; exact absurd h (by simp [hW])
          · simp only [hW]
            intro h
            rw [Option.some_inj] at h
            subst h
            exact ⟨rfl, rfl⟩
    · intro h
      rw [Option.some_inj] at h
      subst h
      exact ⟨rfl, rfl⟩

/-- Witness for the amended C4, exercising all three implications at concrete
inputs: a concrete non-incremental fit, a concrete incremental fit, and a
concrete finalize. -/
theorem fit_statistics_amended_witness :
    (∃ s1 : ELMState 1 1 1,
      fitOffline ⟨1, 1, 0, 1, "identity", "ridge", 1⟩ id
        (initELMState ⟨Matrix.of ![![0]], ![0]⟩) [(![0], ![0])] false true = some s1 ∧
      s1.xTx = none ∧ s1.xTy = none) ∧
    (∃ s2 : ELMState 1 1 1,
      fitOffline ⟨1, 1, 0, 1, "identity", "ridge", 1⟩ id
        (initELMState ⟨Matrix.of ![![0]], ![0]⟩) [(![0], ![0])] true true = some s2 ∧
      s2.xTx.isSome ∧ s2.xTy.isSome) ∧
    (∃ s3 : ELMState 1 1 1,
      finalizeELM ⟨1, 1, 0, 1, "identity", "ridge", 1⟩ fittedStateC = some s3 ∧
      s3.xTx = none ∧ s3.xTy = none) := by
  refine ⟨?_, ?_, ?_⟩
  · obtain ⟨s, hfit, _, _, _, _⟩ := regressorFit_ridge_spec
      (⟨1, 1, 0, 1, "identity", "ridge", 1⟩ : ELMHyper) id
      (⟨Matrix.of ![![0]], ![0]⟩ : Reservoir 1 1) [(![0], ![0])]
      rfl (by norm_num) (by simp) rfl
    simp only [regressorFit,
      show validateHyperparameters (⟨1, 1, 0, 1, "identity", "ridge", 1⟩ : ELMHyper) =
        Except.ok () from rfl] at hfit
    obtain ⟨h1, h2⟩ := (fit_statistics_amended
      (⟨1, 1, 0, 1, "identity", "ridge", 1⟩ : ELMHyper) id
      (initELMState ⟨Matrix.of ![![0]], ![0]⟩) s [(![0], ![0])]).1 hfit
    exact ⟨s, hfit, h1, h2⟩
  · obtain ⟨s, hs⟩ := fitOffline_init_incr_ridge_succeeds
      (⟨1, 1, 0, 1, "identity", "ridge", 1⟩ : ELMHyper) id
      (⟨Matrix.of ![![0]], ![0]⟩ : Reservoir 1 1) [(![0], ![0])]
      rfl (by norm_num) (by simp)
    obtain ⟨h1, h2⟩ := (fit_statistics_amended
      (⟨1, 1, 0, 1, "identity", "ridge", 1⟩ : ELMHyper) id
      (initELMState ⟨Matrix.of ![![0]], ![0]⟩) s [(![0], ![0])]).2.1 hs
    exact ⟨s, hs, h1, h2⟩
  · obtain ⟨s3, h3⟩ := Option.isSome_iff_exists.mp
      (show (finalizeELM (⟨1, 1, 0, 1, "identity", "ridge", 1⟩ : ELMHyper)
        fittedStateC).isSome from rfl)
    obtain ⟨h1, h2⟩ := (fit_statistics_amended
      (⟨1, 1, 0, 1, "identity", "ridge", 1⟩ : ELMHyper) id fittedStateC s3
      ([] : List (Sample 1 1))).2.2 h3
    exact ⟨s3, h3, h1, h2⟩

/-- C5: with solver `ridge`, `_compute_output_weights` solves
`(S_xx + beta² n I) W = S_xy` (lambda is `beta² · n_samples`); with solver
`pinv` it solves `S_xx W = S_xy` using the exact inverse, and it fails
(raises `LinAlgError`) exactly when `S_xx` is singular. -/
theorem solver_formulas {d O : ℕ} (beta : ℚ) (n : ℕ)
    (xTx : Matrix (Fin d) (Fin d) ℚ) (xTy : Matrix (Fin d) (Fin O) ℚ) :
    ((xTx + (beta ^ 2 * (n : ℚ)) • (1 : Matrix (Fin d) (Fin d) ℚ)).det ≠ 0 →
      ∃ W, computeOutputWeights "ridge" beta n xTx xTy = some W ∧
        (xTx + (beta ^ 2 * (n : ℚ)) • (1 : Matrix (Fin d) (Fin d) ℚ)) * W = xTy) ∧
    (xTx.det ≠ 0 →
      ∃ W, computeOutputWeights "pinv" beta n xTx xTy = some W ∧ xTx * W = xTy) ∧
    (xTx.det = 0 → computeOutputWeights "pinv" beta n xTx xTy = none) := by
  refine ⟨?_, ?_, ?_⟩
  · intro hdet
    refine ⟨_, computeOutputWeights_ridge beta n xTx xTy hdet, ?_⟩
    rw [← Matrix.mul_assoc, mul_matInv_of_det_ne_zero _ hdet, Matrix.one_mul]
  · intro hdet
    refine ⟨_, computeOutputWeights_pinv beta n xTx xTy hdet, ?_⟩
    rw [← Matrix.mul_assoc, mul_matInv_of_det_ne_zero _ hdet, Matrix.one_mul]
  · exact computeOutputWeights_pinv_singular beta n xTx xTy

/-- Witness for C5 at concrete matrices, exercising all three implications. -/
theorem solver_formulas_witness :
    (∃ W1 : Matrix (Fin 1) (Fin 1) ℚ,
      computeOutputWeights "ridge" 0 0 !![(2:ℚ)] !![(4:ℚ)] = some W1 ∧
      (!![(2:ℚ)] + ((0:ℚ) ^ 2 * ((0:ℕ) : ℚ)) • (1 : Matrix (Fin 1) (Fin 1) ℚ)) * W1 = !![(4:ℚ)]) ∧
    (∃ W2 : Matrix (Fin 1) (Fin 1) ℚ,
      computeOutputWeights "pinv" 0 0 !![(2:ℚ)] !![(4:ℚ)] = some W2 ∧
      !![(2:ℚ)] * W2 = !![(4:ℚ)]) ∧
    computeOutputWeights "pinv" (0:ℚ) 0 !![(0:ℚ)] !![(4:ℚ)] = none := by
  obtain ⟨h1, h2, _⟩ := solver_formulas (d := 1) (O := 1) 0 0 !![(2:ℚ)] !![(4:ℚ)]
  obtain ⟨_, _, h3⟩ := solver_formulas (d := 1) (O := 1) 0 0 !![(0:ℚ)] !![(4:ℚ)]
  refine ⟨h1 ?_, h2 ?_, h3 ?_⟩
  · simp [Matrix.det_fin_one]
  · simp [Matrix.det_fin_one]
  · simp [Matrix.det_fin_one]

/-- C6: the solver name `lasso` passes hyperparameter validation, yet
`_compute_output_weights` has no `lasso` branch: it computes exactly the
`pinv` solution, only printing a diagnostic warning (the warning predicate is
true for `lasso` and false for the two implemented solvers); no exception is
raised and the weights are produced whenever `S_xx` is invertible. -/
theorem lasso_fallback {d O : ℕ} (beta : ℚ) (n : ℕ)
    (xTx : Matrix (Fin d) (Fin d) ℚ) (xTy : Matrix (Fin d) (Fin O) ℚ) :
    validateHyperparameters ⟨2, 1, 0, 500, "tanh", "lasso", 1⟩ = Except.ok () ∧
    computeOutputWeights "lasso" beta n xTx xTy = computeOutputWeights "pinv" beta n xTx xTy ∧
    solverFallbackWarning "lasso" = true ∧
    solverFallbackWarning "pinv" = false ∧
    solverFallbackWarning "ridge" = false ∧
    (xTx.det ≠ 0 →
      computeOutputWeights "lasso" beta n xTx xTy = some (matInv xTx * xTy)) := by
  refine ⟨rfl, ?_, rfl, rfl, rfl, ?_⟩
  · rw [computeOutputWeights, if_neg (by decide), if_neg (by decide),
      computeOutputWeights, if_pos rfl]
  · intro hdet
    rw [computeOutputWeights, if_neg (by decide), if_neg (by decide),
      npLinalgInv, if_neg hdet]
    rfl

/-- Witness for C6 at a concrete nonsingular matrix. -/
theorem lasso_fallback_witness :
    computeOutputWeights "lasso" (0:ℚ) 0 !![(3:ℚ)] !![(6:ℚ)] =
      computeOutputWeights "pinv" (0:ℚ) 0 !![(3:ℚ)] !![(6:ℚ)] ∧
    ∃ W, computeOutputWeights "lasso" (0:ℚ) 0 !![(3:ℚ)] !![(6:ℚ)] = some W := by
  obtain ⟨_, heq, _, _, _, himp⟩ := lasso_fallback (d := 1) (O := 1) 0 0 !![(3:ℚ)] !![(6:ℚ)]
  exact ⟨heq, ⟨_, himp (by simp [Matrix.det_fin_one])⟩⟩

/-- Counterexample to C7 as stated: with `k_in = 2` and a single input
feature, `k_in > n_features` yet initialization succeeds, because the
length-1 permutation slice broadcasts into the length-`k_in` slot. -/
theorem reservoir_init_failure_counterexample :
    (1 : ℤ) < (⟨2, 1, 0, 10, "tanh", "ridge", 0⟩ : ELMHyper).k_in ∧
    fitInitStep ⟨2, 1, 0, 10, "tanh", "ridge", 0⟩ 1 = Except.ok () := by
  exact ⟨by decide, rfl⟩

/-- C7 amended: the first phase of `fit` (hyperparameter validation followed
by `_init_weights`) raises an error — producing no reservoir — whenever the
requested hidden size is nonpositive, `k_in` is nonpositive, or `k_in`
exceeds the number of input features with more than one input feature (with
exactly one feature the permutation slice broadcasts and no error occurs). -/
theorem reservoir_init_failure (p : ELMHyper) (nFeatures : ℕ)
    (h : p.reservoir_size ≤ 0 ∨ p.k_in ≤ 0 ∨
      ((nFeatures : ℤ) < p.k_in ∧ nFeatures ≠ 1)) :
    ∃ msg, fitInitStep p nFeatures = Except.error msg := by
  unfold fitInitStep validateHyperparameters
  split_ifs with h1 h2 h3 h4 h5 h6 h7 h8 <;>
    first
      | exact ⟨_, rfl⟩
      | (exfalso; rcases h with h | h | ⟨ha, hb⟩ <;> omega)

/-- Witness for C7: `k_in = 5` with 2 input features fails. -/
theorem reservoir_init_failure_witness :
    ∃ msg, fitInitStep ⟨5, 1, 0, 10, "tanh", "ridge", 0⟩ 2 = Except.error msg :=
  reservoir_init_failure ⟨5, 1, 0, 10, "tanh", "ridge", 0⟩ 2
    (Or.inr (Or.inr ⟨by norm_num, by norm_num⟩))

lemma fitOffline_reservoir {R F O : ℕ} (p : ELMHyper) (σ : ℚ → ℚ)
    (st s : ELMState R F O) (batch : List (Sample F O))
    (incremental updateOutputWeights : Bool)
    (h : fitOffline p σ st batch incremental updateOutputWeights = some s) :
    s.reservoir = st.reservoir := by
  rcases incremental with _ | _
  · rcases updateOutputWeights with _ | _
    · revert h
      unfold fitOffline
      simp only [if_true, Bool.false_eq_true, if_false]
      intro h
      rw [Option.some_inj] at h
      subst h
      rfl
    · obtain ⟨W, _, hres, _, _, _, _⟩ := fitOffline_batch_spec p σ st s batch h
      exact hres
  · rcases updateOutputWeights with _ | _
    · revert h
      unfold fitOffline
      rcases st.xTx with _ | A <;> rcases st.xTy with _ | B <;>
        rcases st.activationsMean with _ | M <;> rcases st.activationsVar with _ | V <;>
          simp only [if_true, Bool.false_eq_true, if_false] <;>
          first
            | (intro h; exact Option.noConfusion h)
            | (intro h; rw [Option.some_inj] at h; subst h; rfl)
    · obtain ⟨A, B, W, _, _, hres, _, _, _, _, _⟩ := fitOffline_incr_spec p σ st s batch h
      exact hres

lemma finalizeELM_reservoir {R F O : ℕ} (p : ELMHyper) (st s : ELMState R F O)
    (h : finalizeELM p st = some s) : s.reservoir = st.reservoir := by
  revert h
  unfold finalizeELM
  rcases hw : st.output_weights with _ | W
  · rcases hA : st.xTx with _ | A
    · intro h; exact absurd h (by simp)
    · rcases hB : st.xTy with _ | B
      · intro h; exact absurd h (by simp)
      · rcases hW : computeOutputWeights p.solver p.beta st.nSamples A B with _ | W
        · intro h; exact absurd h (by simp [hW])
        · simp only [hW]
          intro h
          rw [Option.some_inj] at h
          subst h
          rfl
  · intro h
    rw [Option.some_inj] at h
    subst h
    rfl

/-- C8: for every reservoir built by `_init_weights` from per-row injective
column choices (the first `k_in` entries of a permutation of the feature
indices) and nonzero drawn values, every hidden unit's row of the sparse
input-weight matrix has exactly `k_in` nonzero entries; moreover neither
`_fit_offline` (batch or incremental, hence `fit`/`partial_fit`) nor
`_finalize` ever modifies the stored reservoir weights (`predict` takes the
state read-only). -/
theorem input_weights_sparsity {R K F : ℕ} (perms : Fin R → Fin K → Fin F)
    (dataVec : Fin R → Fin K → ℚ)
    (hinj : ∀ en, Function.Injective (perms en))
    (hnz : ∀ en s, dataVec en s ≠ 0) :
    (∀ en : Fin R,
      (Finset.univ.filter fun c => initInputWeights perms dataVec en c ≠ 0).card = K) ∧
    (∀ (O : ℕ) (p : ELMHyper) (σ : ℚ → ℚ) (st s : ELMState R F O)
      (batch : List (Sample F O)) (incremental updateOutputWeights : Bool),
      fitOffline p σ st batch incremental updateOutputWeights = some s →
      s.reservoir = st.reservoir) ∧
    (∀ (O : ℕ) (p : ELMHyper) (st s : ELMState R F O),
      finalizeELM p st = some s → s.reservoir = st.reservoir) := by
  refine ⟨?_, ?_, ?_⟩
  · intro en
    have himg : (Finset.univ.filter fun c => initInputWeights perms dataVec en c ≠ 0) =
        Finset.univ.image (perms en) := by
      ext c
      simp only [Finset.mem_filter, Finset.mem_univ, true_and, Finset.mem_image]
      constructor
      · intro hc
        by_contra hno
        push_neg at hno
        apply hc
        unfold initInputWeights
        simp only [Matrix.of_apply]
        apply Finset.sum_eq_zero
        intro x _
        exact if_neg (hno x)
      · rintro ⟨s0, -, rfl⟩
        unfold initInputWeights
        simp only [Matrix.of_apply]
        rw [Finset.sum_eq_single s0]
        · rw [if_pos rfl]; exact hnz en s0
        · intro x _ hx
          exact if_neg fun hEq => hx (hinj en hEq)
        · intro habs; exact absurd (Finset.mem_univ s0) habs
    rw [himg, Finset.card_image_of_injective _ (hinj en)]
    simp
  · intro O p σ st s batch incremental updateOutputWeights h
    exact fitOffline_reservoir p σ st s batch incremental updateOutputWeights h
  · intro O p st s h
    exact finalizeELM_reservoir p st s h

lemma fitOffline_incr_noupdate_eq {R F O : ℕ} (p : ELMHyper) (σ : ℚ → ℚ)
    (st : ELMState R F O) (b : List (Sample F O))
    (A : Matrix (Fin (R + 1)) (Fin (R + 1)) ℚ) (B : Matrix (Fin (R + 1)) (Fin O) ℚ)
    (M V : Vec R)
    (hA : st.xTx = some A) (hB : st.xTy = some B)
    (hM : st.activationsMean = some M) (hV : st.activationsVar = some V) :
    fitOffline p σ st b true false =
      some { st with
        xTx := some (A + gramXX (stateRows p σ st.reservoir b))
        xTy := some (B + gramXY (statePairs p σ st.reservoir b))
        nSamples := st.nSamples + b.length
        activationsMean := some fun i =>
          ((st.nSamples + b.length : ℕ) : ℚ) / (((st.nSamples + b.length : ℕ) : ℚ) + (b.length : ℚ)) * M i +
            (b.length : ℚ) / (((st.nSamples + b.length : ℕ) : ℚ) + (b.length : ℚ)) *
              colMean (stateRows p σ st.reservoir b) i.succ
        activationsVar := some fun i =>
          ((st.nSamples + b.length : ℕ) : ℚ) / (((st.nSamples + b.length : ℕ) : ℚ) + (b.length : ℚ)) * V i +
            (b.length : ℚ) / (((st.nSamples + b.length : ℕ) : ℚ) + (b.length : ℚ)) *
              colVar (stateRows p σ st.reservoir b) i.succ +
            ((st.nSamples + b.length : ℕ) : ℚ) * (b.length : ℚ) /
                (((st.nSamples + b.length : ℕ) : ℚ) + (b.length : ℚ)) ^ 2 *
              (M i - colMean (stateRows p σ st.reservoir b) i.succ) ^ 2
        output_weights := none } := by
  simp only [fitOffline, hA, hB, hM, hV, if_true, Bool.false_eq_true, if_false]

/-- C2 (code bug): evaluated at a concrete one-unit reservoir with identity
activation and a single incremental batch `X = [[1]]`, `y = [[1]]`, the
running activation mean stored by `_fit_offline` is `1/2`, while the mean of
the activations of the full (concatenated) dataset is `1`.  The cause is that
line 285 adds the batch size to `_n_samples` before line 294 reads
`m = self._n_samples`, so the Chan combination runs with `m` already
including the current batch instead of the number of previously seen samples. -/
theorem streaming_mean_bug :
    ∃ (st : ELMState 1 1 1) (m : Vec 1),
      fitOffline hyperC id (initELMState reservoirOneC) [(![1], ![1])] true false = some st ∧
      st.activationsMean = some m ∧
      m 0 = 1 / 2 ∧
      colMean (stateRows hyperC id reservoirOneC [(![1], ![1])]) 1 = 1 ∧
      (1 / 2 : ℚ) ≠ 1 := by
  have heq := fitOffline_incr_noupdate_eq hyperC id (initELMState reservoirOneC)
    [(![1], ![1])] 0 0 0 0 rfl rfl rfl rfl
  have hcol : colMean (stateRows hyperC id reservoirOneC [(![1], ![1])]) 1 = 1 := by
    simp [colMean, stateRows, reservoirStateRow, forwardRow, reservoirOneC, hyperC,
      Matrix.mulVec, Matrix.dotProduct, Fin.sum_univ_one, Matrix.vecHead,
      Matrix.of_apply, Matrix.cons_val_zero]
  refine ⟨_, _, heq, rfl, ?_, hcol, by norm_num⟩
  have hsucc : (0 : Fin 1).succ = (1 : Fin 2) := rfl
  simp only [initELMState, hsucc, hcol]
  norm_num

lemma validateScenario_ok : validateHyperparameters hyperScenarioC = Except.ok () := by
  unfold validateHyperparameters hyperScenarioC
  norm_num [SUPPORTED_ACTIVATIONS, OFFLINE_SOLVERS]

/-- C3: the `check_is_fitted` call at line 462 of `predict` lists
`reservoir_weights_`, an attribute no code path ever assigns, so in the
concrete scenario (hidden size 50, `k_in = 2`, ridge, `beta = 1e-3`, `X` of
shape `(100, 5)`, labels in `{0, 1}`) — and in fact for every state and every
input — `predict` raises `NotFittedError` instead of returning a `(100,)`
array; this holds even after a successful `fit` that produced genuine
`(51, 1)` output weights, exhibited here on the all-one-label dataset. -/
theorem concrete_scenario_predict_raises :
    (∀ (st : ELMState 50 5 1) (X : List (Vec 5)),
      regressorPredict hyperScenarioC id st X = none) ∧
    ∃ (st : ELMState 50 5 1) (W : Matrix (Fin 51) (Fin 1) ℚ),
      regressorFit hyperScenarioC id reservoirScenarioC dataOneC = some st ∧
      st.output_weights = some W ∧
      regressorPredict hyperScenarioC id st (dataOneC.map Prod.fst) = none := by
  have hnone : ∀ (st : ELMState 50 5 1) (X : List (Vec 5)),
      regressorPredict hyperScenarioC id st X = none := by
    intro st X
    unfold regressorPredict predictBase
    rw [if_neg (by decide)]
    rfl
  refine ⟨hnone, ?_⟩
  have hdata : dataOneC ≠ [] := by
    intro h
    have hl := congrArg List.length h
    simp [dataOneC] at hl
  obtain ⟨st, hfit, _, _, _, hout⟩ := regressorFit_ridge_spec hyperScenarioC id
    reservoirScenarioC dataOneC rfl (by norm_num [hyperScenarioC]) hdata
    validateScenario_ok
  exact ⟨st, _, hfit, hout, hnone st _⟩

/-- Witness for C8 at a one-unit, one-feature, `k_in = 1` reservoir with a
nonzero drawn value. -/
theorem input_weights_sparsity_witness :
    (Finset.univ.filter fun c =>
      initInputWeights (R := 1) (K := 1) (fun _ _ => (0 : Fin 1)) (fun _ _ => (1:ℚ)) 0 c ≠ 0).card = 1 :=
  (input_weights_sparsity (R := 1) (K := 1) (fun _ _ => (0 : Fin 1)) (fun _ _ => (1:ℚ))
    (fun _ a b _ => Subsingleton.elim a b) (fun _ _ => one_ne_zero)).1 0

lemma ite_inv_eq_some {m : ℕ} {A P : Matrix (Fin m) (Fin m) ℚ}
    (h : (if A.det = 0 then none else some (matInv A)) = some P) :
    A.det ≠ 0 ∧ P = matInv A := by
  by_cases hd : A.det = 0
  · rw [if_pos hd] at h
    exact absurd h (by simp)
  · rw [if_neg hd] at h
    exact ⟨hd, (Option.some_inj.mp h).symm⟩

lemma irPartialFit_spec {d O : ℕ} (alpha : ℚ) (st : IRState d O)
    (X : List (Vec d)) (y : List (Vec O)) (s : IRState d O)
    (h : irPartialFit alpha st X y false = some s) :
    (st.K.getD 0 + gramXX X + alpha ^ 2 • (1 : Matrix (Fin d) (Fin d) ℚ)).det ≠ 0 ∧
    s.K = some (st.K.getD 0 + gramXX X) ∧
    s.P = some (matInv (st.K.getD 0 + gramXX X + alpha ^ 2 • (1 : Matrix (Fin d) (Fin d) ℚ))) ∧
    (st.K.getD 0 + gramXX X + alpha ^ 2 • (1 : Matrix (Fin d) (Fin d) ℚ)) *
      matInv (st.K.getD 0 + gramXX X + alpha ^ 2 • (1 : Matrix (Fin d) (Fin d) ℚ)) = 1 ∧
    (st.output_weights = none →
      s.output_weights = some
        (matInv (st.K.getD 0 + gramXX X + alpha ^ 2 • (1 : Matrix (Fin d) (Fin d) ℚ)) *
          gramXY (X.zip y))) ∧
    (∀ W0, st.output_weights = some W0 →
      s.output_weights = some
        (W0 + matInv (st.K.getD 0 + gramXX X + alpha ^ 2 • (1 : Matrix (Fin d) (Fin d) ℚ)) *
          gramXY (X.zip ((X.zip y).map fun smp => fun o => smp.2 o - applyWeights W0 smp.1 o)))) := by
  revert h
  unfold irPartialFit npLinalgInv
  simp only [Bool.false_eq_true, if_false]
  rcases hK : st.K with _ | K0 <;> rcases hw : st.output_weights with _ | W0 <;>
    simp only [Option.getD_none, Option.getD_some, zero_add] <;>
    split <;>
    intro h <;>
    first
      | exact Option.noConfusion h
      | (rename_i P heq
         obtain ⟨hdet, hP⟩ := ite_inv_eq_some heq
         subst hP
         rw [Option.some_inj] at h
         subst h
         refine ⟨hdet, rfl, rfl, mul_matInv_of_det_ne_zero _ hdet, ?_, ?_⟩
         · first
             | (intro _; rfl)
             | (intro habs; exact Option.noConfusion habs)
         · first
             | (intro W1 habs; exact Option.noConfusion habs)
             | (intro W1 hW1
                rw [Option.some_inj] at hW1
                subst hW1
                rfl))


/-- C9: every successful `IncrementalRegression.partial_fit` call (without
reset) adds the preprocessed batch Gram matrix `XᵀX` into the accumulator
`_K`, recomputes the full precision matrix `_P = (K + α²I)⁻¹` from the updated
`_K` (a genuine inverse, not a rank-one update of the previous `_P`), and sets
the output weights to `P·Xᵀy` on a first call resp.
`W + P·Xᵀ(y − X·W)` on a subsequent call. -/
theorem ir_partial_fit_update {d O : ℕ} (alpha : ℚ) (st : IRState d O)
    (X : List (Vec d)) (y : List (Vec O)) (s : IRState d O)
    (h : irPartialFit alpha st X y false = some s) :
    (st.K.getD 0 + gramXX X + alpha ^ 2 • (1 : Matrix (Fin d) (Fin d) ℚ)).det ≠ 0 ∧
    s.K = some (st.K.getD 0 + gramXX X) ∧
    s.P = some (matInv (st.K.getD 0 + gramXX X + alpha ^ 2 • (1 : Matrix (Fin d) (Fin d) ℚ))) ∧
    (st.K.getD 0 + gramXX X + alpha ^ 2 • (1 : Matrix (Fin d) (Fin d) ℚ)) *
      matInv (st.K.getD 0 + gramXX X + alpha ^ 2 • (1 : Matrix (Fin d) (Fin d) ℚ)) = 1 ∧
    (st.output_weights = none →
      s.output_weights = some
        (matInv (st.K.getD 0 + gramXX X + alpha ^ 2 • (1 : Matrix (Fin d) (Fin d) ℚ)) *
          gramXY (X.zip y))) ∧
    (∀ W0, st.output_weights = some W0 →
      s.output_weights = some
        (W0 + matInv (st.K.getD 0 + gramXX X + alpha ^ 2 • (1 : Matrix (Fin d) (Fin d) ℚ)) *
          gramXY (X.zip ((X.zip y).map fun smp => fun o => smp.2 o - applyWeights W0 smp.1 o)))) :=
  irPartialFit_spec alpha st X y s h

lemma gramXX_one : gramXX [(![1] : Vec 1)] = !![(1:ℚ)] := by
  ext i j
  fin_cases i <;> fin_cases j
  simp [gramXX]

lemma gram_ridge_one :
    (!![(1:ℚ)] : Matrix (Fin 1) (Fin 1) ℚ) + (1:ℚ) ^ 2 • (1 : Matrix (Fin 1) (Fin 1) ℚ) =
      !![(2:ℚ)] := by
  ext i j
  fin_cases i <;> fin_cases j
  simp [Matrix.one_apply]
  norm_num

lemma det_two_ne : ¬ ((!![(2:ℚ)] : Matrix (Fin 1) (Fin 1) ℚ).det = 0) := by
  simp [Matrix.det_fin_one]

lemma irPartialFit_concrete_isSome :
    (irPartialFit 1 (irInit 1 1) [(![1] : Vec 1)] [(![1] : Vec 1)] false).isSome := by
  unfold irPartialFit npLinalgInv irInit
  simp only [Bool.false_eq_true, if_false]
  rw [gramXX_one, gram_ridge_one, if_neg det_two_ne]
  rfl

/-- Witness for C9 at a concrete one-dimensional regression batch. -/
theorem ir_partial_fit_update_witness :
    ∃ s : IRState 1 1,
      irPartialFit 1 (irInit 1 1) [(![1] : Vec 1)] [(![1] : Vec 1)] false = some s ∧
      s.K = some ((irInit 1 1).K.getD 0 + gramXX [(![1] : Vec 1)]) ∧
      s.P = some (matInv ((irInit 1 1).K.getD 0 + gramXX [(![1] : Vec 1)] +
        (1:ℚ) ^ 2 • (1 : Matrix (Fin 1) (Fin 1) ℚ))) ∧
      s.output_weights = some (matInv ((irInit 1 1).K.getD 0 + gramXX [(![1] : Vec 1)] +
        (1:ℚ) ^ 2 • (1 : Matrix (Fin 1) (Fin 1) ℚ)) *
        gramXY ([(![1] : Vec 1)].zip [(![1] : Vec 1)])) := by
  obtain ⟨s, hs⟩ := Option.isSome_iff_exists.mp irPartialFit_concrete_isSome
  obtain ⟨_, h2, h3, _, h5, _⟩ :=
    ir_partial_fit_update 1 (irInit 1 1) [(![1] : Vec 1)] [(![1] : Vec 1)] s hs
  exact ⟨s, hs, h2, h3, h5 rfl⟩

lemma irPartialFit_dim1_isSome (st : IRState 1 1) (hK : st.K = none) :
    (irPartialFit 1 st [(![1] : Vec 1)] [(![1] : Vec 1)] false).isSome := by
  unfold irPartialFit npLinalgInv
  simp only [Bool.false_eq_true, if_false, hK]
  rw [gramXX_one, gram_ridge_one, if_neg det_two_ne]
  rcases st.output_weights with _ | W <;> rfl

lemma matInv_two : matInv !![(2:ℚ)] = !![(1/2:ℚ)] := by
  ext i j
  fin_cases i <;> fin_cases j
  simp [matInv, Matrix.det_fin_one, Matrix.adjugate_fin_one, Matrix.one_apply]

lemma gramXY_ones : gramXY ([(![1] : Vec 1)].zip [(![1] : Vec 1)]) = !![(1:ℚ)] := by
  ext i j
  fin_cases i <;> fin_cases j
  simp [gramXY]

lemma half_mul_one :
    (!![(1/2:ℚ)] : Matrix (Fin 1) (Fin 1) ℚ) * !![(1:ℚ)] = !![(1/2:ℚ)] := by
  ext i j
  fin_cases i <;> fin_cases j
  simp [Matrix.mul_apply, Fin.sum_univ_one]

lemma residual_half :
    (([(![1] : Vec 1)].zip [(![1] : Vec 1)]).map
      (fun smp => fun o => smp.2 o - applyWeights !![(1/2:ℚ)] smp.1 o)) =
    [((fun _ => (1/2:ℚ)) : Vec 1)] := by
  have hfun : (fun o => (![1] : Vec 1) o - applyWeights !![(1/2:ℚ)] (![1] : Vec 1) o) =
      ((fun _ => (1/2:ℚ)) : Vec 1) := by
    funext o
    fin_cases o
    simp [applyWeights, Fin.sum_univ_one]
    norm_num
  simp only [List.zip_cons_cons, List.zip_nil_right, List.map_cons, List.map_nil]
  congr 1

lemma gramXY_half :
    gramXY ([(![1] : Vec 1)].zip [((fun _ => (1/2:ℚ)) : Vec 1)]) = !![(1/2:ℚ)] := by
  ext i j
  fin_cases i <;> fin_cases j
  simp [gramXY]

lemma half_mul_half :
    (!![(1/2:ℚ)] : Matrix (Fin 1) (Fin 1) ℚ) * !![(1/2:ℚ)] = !![(1/4:ℚ)] := by
  ext i j
  fin_cases i <;> fin_cases j
  simp [Matrix.mul_apply, Fin.sum_univ_one]
  norm_num

lemma half_add_quarter :
    (!![(1/2:ℚ)] : Matrix (Fin 1) (Fin 1) ℚ) + !![(1/4:ℚ)] = !![(3/4:ℚ)] := by
  ext i j
  fin_cases i <;> fin_cases j
  simp [Matrix.add_apply]
  norm_num

/-- C10: `partial_fit` with `reset=True` (hence `fit`, which always resets)
drops `_K` and `_P` but keeps the previously learned `_output_weights`, so a
refit applies the recursive correction to stale weights: concretely, on the
one-point dataset `X = [[1]]`, `y = [1]` with `alpha = 1`, a fresh `fit`
learns `W = 1/2`, while calling `fit` again on the already-fitted instance
yields `W = 3/4 ≠ 1/2`. -/
theorem ir_reset_keeps_weights :
    (∀ (d O : ℕ) (alpha : ℚ) (st : IRState d O) (X : List (Vec d)) (y : List (Vec O)),
      irPartialFit alpha st X y true =
        irPartialFit alpha ⟨none, none, st.output_weights⟩ X y false) ∧
    (∃ s1 s2 : IRState 1 1,
      irFit 1 (irInit 1 1) [(![1] : Vec 1)] [(![1] : Vec 1)] = some s1 ∧
      irFit 1 s1 [(![1] : Vec 1)] [(![1] : Vec 1)] = some s2 ∧
      s1.output_weights = some !![(1/2:ℚ)] ∧
      s2.output_weights = some !![(3/4:ℚ)] ∧
      s2.output_weights ≠ s1.output_weights) := by
  have hreset : ∀ (d O : ℕ) (alpha : ℚ) (st : IRState d O) (X : List (Vec d)) (y : List (Vec O)),
      irPartialFit alpha st X y true =
        irPartialFit alpha ⟨none, none, st.output_weights⟩ X y false := by
    intro d O alpha st X y
    rfl
  refine ⟨hreset, ?_⟩
  obtain ⟨s1, hs1⟩ := Option.isSome_iff_exists.mp
    (irPartialFit_dim1_isSome ⟨none, none, none⟩ rfl)
  have hfit1 : irFit 1 (irInit 1 1) [(![1] : Vec 1)] [(![1] : Vec 1)] = some s1 := by
    unfold irFit
    rw [hreset]
    exact hs1
  obtain ⟨_, _, _, _, hW1none, _⟩ :=
    irPartialFit_spec 1 ⟨none, none, none⟩ _ _ s1 hs1
  have hM1 : ((⟨none, none, none⟩ : IRState 1 1)).K.getD 0 + gramXX [(![1] : Vec 1)] +
      (1:ℚ) ^ 2 • (1 : Matrix (Fin 1) (Fin 1) ℚ) = !![(2:ℚ)] := by
    simp only [Option.getD_none, zero_add, gramXX_one]
    exact gram_ridge_one
  have hs1W : s1.output_weights = some !![(1/2:ℚ)] := by
    rw [hW1none rfl, hM1, matInv_two, gramXY_ones, half_mul_one]
  obtain ⟨s2, hs2⟩ := Option.isSome_iff_exists.mp
    (irPartialFit_dim1_isSome ⟨none, none, some !![(1/2:ℚ)]⟩ rfl)
  have hfit2 : irFit 1 s1 [(![1] : Vec 1)] [(![1] : Vec 1)] = some s2 := by
    unfold irFit
    rw [hreset, hs1W]
    exact hs2
  obtain ⟨_, _, _, _, _, hW2some⟩ :=
    irPartialFit_spec 1 ⟨none, none, some !![(1/2:ℚ)]⟩ _ _ s2 hs2
  have hM2 : ((⟨none, none, some !![(1/2:ℚ)]⟩ : IRState 1 1)).K.getD 0 +
      gramXX [(![1] : Vec 1)] + (1:ℚ) ^ 2 • (1 : Matrix (Fin 1) (Fin 1) ℚ) = !![(2:ℚ)] := by
    simp only [Option.getD_none, zero_add, gramXX_one]
    exact gram_ridge_one
  have hs2W : s2.output_weights = some !![(3/4:ℚ)] := by
    rw [hW2some !![(1/2:ℚ)] rfl, hM2, matInv_two, residual_half, gramXY_half,
      half_mul_half, half_add_quarter]
  refine ⟨s1, s2, hfit1, hfit2, hs1W, hs2W, ?_⟩
  rw [hs1W, hs2W]
  intro hEq
  rw [Option.some_inj] at hEq
  have h00 := congrArg (fun M : Matrix (Fin 1) (Fin 1) ℚ => M 0 0) hEq
  simp at h00
  norm_num at h00
